import Mathlib

/-!
Verification of the audipi audio playback engine.

This file gives a shallow embedding of the repository's Python sources
(`playback.py`, `audio.py`, `cassette.py`) and proves properties of the
embedded definitions.

Conventions of the embedding:
* Python `int` values become `ℤ`, Python floats become `ℚ` (all arithmetic
  in the sources is exact on the inputs considered), `numpy` sample buffers
  become `List ℤ` (one abstract sample value per frame; the channel axis is
  irrelevant to every property proved here).
* Python `int(x)` is truncation toward zero, embedded as `pyInt`.
* Python slicing `data[a : b]` (with the nonnegative indices the sources
  produce) is embedded as `pySlice`.
* The sounddevice `OutputStream` is external; its clock shows up as an
  explicit `streamTime : ℚ` argument, and `raise CallbackStop()` becomes a
  `Bool` component of the callback's result.
-/

namespace audipi

/-- Python `int()` applied to a (rational) number: truncation toward zero. -/
def pyInt (q : ℚ) : ℤ := if q < 0 then ⌈q⌉ else ⌊q⌋

/-- Python slice `data[a : b]` for the nonnegative bounds the sources use. -/
def pySlice (data : List ℤ) (a b : ℤ) : List ℤ :=
  (data.drop a.toNat).take (b - a).toNat

/-! ### playback.py -/

/-- `playback.Sound`: a sample buffer plus its sample rate. -/
structure Sound where
  data : List ℤ
  sample_rate : ℚ

/-- `playback.Params`: marker positions (msec) and the loop flag. -/
structure Params where
  markers : List ℤ
  loop : Bool

/-- `playback.State`: the buffer record written by the callback. -/
structure State where
  buff_first_frame : ℤ
  buff_last_frame : ℤ
  buff_output_time : ℚ

/-- `playback.Pausing` (the `_stream` handle is external and omitted). -/
structure Pausing where
  sound : Sound
  params : Params
  position : ℤ

/-- `playback.Playing` (the `_st_time_offset` and `_stream` fields are
bound to the external output stream and omitted). -/
structure Playing where
  sound : Sound
  params : Params
  state : State
  start_position : ℤ

/-- `playback.prepare`. -/
def prepare (data : List ℤ) (sample_rate : ℚ) (start_time : ℤ)
    (params : Params) : Pausing :=
  { sound := ⟨data, sample_rate⟩, params := params, position := start_time }

/-- `playback.start`: builds the `Playing` value; the initial buffer record
is `(-1, -1, -1.0)` exactly as in the source. -/
def start (pb : Pausing) : Playing :=
  { sound := pb.sound
    params := pb.params
    state := { buff_last_frame := -1, buff_first_frame := -1, buff_output_time := -1 }
    start_position := pb.position }

/-- `playback.length`: `int(len(sound.data) / sound.sample_rate * 1000)`. -/
def length (sound : Sound) : ℤ :=
  pyInt ((sound.data.length : ℚ) / sound.sample_rate * 1000)

/-- `playback._pos2frame`:
`max(0, min(int(sound.sample_rate * position / 1000), len(sound.data) - 1))`. -/
def pos2frame (sound : Sound) (position : ℤ) : ℤ :=
  max 0 (min (pyInt (sound.sample_rate * (position : ℚ) / 1000))
    ((sound.data.length : ℤ) - 1))

/-- `playback._frame2pos`: `int(frame / sound.sample_rate * 1000)`; the
frame argument may be fractional (it comes from `_estimate_current_frame`). -/
def frame2pos (sound : Sound) (frame : ℚ) : ℤ :=
  pyInt (frame / sound.sample_rate * 1000)

/-- `playback._estimate_current_frame`: `buff_first_frame - dst * sample_rate`
where `dst = buff_output_time - stream.time`. -/
def estimateCurrentFrame (pb : Playing) (streamTime : ℚ) : ℚ :=
  (pb.state.buff_first_frame : ℚ) -
    (pb.state.buff_output_time - streamTime) * pb.sound.sample_rate

/-- `playback.estimate_current_position`. -/
def estimateCurrentPosition (pb : Playing) (streamTime : ℚ) : ℤ :=
  frame2pos pb.sound (estimateCurrentFrame pb streamTime)

/-- `playback.seek`: clamp the position into `[0, length]`, then set
`buff_last_frame = _pos2frame(sound, position)` (the `_st_time_offset`
update concerns only the external stream clock). -/
def seek (pb : Playing) (position : ℤ) : Playing :=
  { pb with
    start_position := max 0 (min position (length pb.sound))
    state := { pb.state with
      buff_last_frame := pos2frame pb.sound (max 0 (min position (length pb.sound))) } }

/-- The scan of `playback._region` past the first marker: `prev` is the most
recently passed marker; stop at the first marker whose frame exceeds
`frame`, else fall off the end of the list. -/
def regionGo (sound : Sound) (frame : ℤ) (prev : ℤ) : List ℤ → ℤ × ℤ
  | [] => (pos2frame sound prev, (sound.data.length : ℤ) - 1)
  | m :: ms =>
    if frame < pos2frame sound m then (pos2frame sound prev, pos2frame sound m)
    else regionGo sound frame m ms

/-- `playback._region`: the frame bounds of the marker-delimited region
containing `frame` (`first_true` over indices becomes a left-to-right scan). -/
def region (frame : ℤ) (markers : List ℤ) (sound : Sound) : ℤ × ℤ :=
  match markers with
  | [] => (0, (sound.data.length : ℤ) - 1)
  | m :: ms =>
    if frame < pos2frame sound m then (0, pos2frame sound m)
    else regionGo sound frame m ms

/-- `playback._next_block`: one invocation of the fill callback.  Returns the
updated state, the contents written to `dst`, and whether `CallbackStop` was
raised.  Mirrors the source line by line: in loop mode the block is taken
from the region of `first_frame` and wraps once to `left`; otherwise the tail
past the end of the data is zero-filled and the callback stops the stream. -/
def nextBlock (sound : Sound) (params : Params) (state : State)
    (block_size : ℕ) : State × List ℤ × Bool :=
  let first_frame := state.buff_last_frame + 1
  let data := sound.data
  if params.loop then
    let lr := region first_frame params.markers sound
    let size := min (block_size : ℤ) (lr.2 - first_frame + 1)
    let last_frame := first_frame + size - 1
    let head := pySlice data first_frame (last_frame + 1)
    if size < (block_size : ℤ) then
      let wrapped_last := lr.1 + (block_size : ℤ) - size - 1
      ({ state with buff_first_frame := first_frame, buff_last_frame := wrapped_last },
        head ++ pySlice data lr.1 (wrapped_last + 1), false)
    else
      ({ state with buff_first_frame := first_frame, buff_last_frame := last_frame },
        head, false)
  else
    let size := min (block_size : ℤ) ((data.length : ℤ) - first_frame)
    let last_frame := first_frame + size - 1
    let head := pySlice data first_frame (last_frame + 1)
    if size < (block_size : ℤ) then
      ({ state with buff_first_frame := first_frame, buff_last_frame := last_frame },
        head ++ List.replicate ((block_size : ℤ) - size).toNat 0, true)
    else
      ({ state with buff_first_frame := first_frame, buff_last_frame := last_frame },
        head, false)

/-- The first frame the next callback invocation will read
(`playback._next_block`, line `first_frame = state.buff_last_frame + 1`). -/
def nextFirstFrame (state : State) : ℤ := state.buff_last_frame + 1

/-! ### audio.py -/

/-- `audio.Audio`: sample buffer, sample rate and the owned marker list. -/
structure Audio where
  data : List ℤ
  sample_rate : ℚ
  markers : List ℤ

/-- `Audio.length`: `int(frames / sample_rate * 1000)`. -/
def Audio.length (a : Audio) : ℤ :=
  pyInt ((a.data.length : ℚ) / a.sample_rate * 1000)

/-- `Audio.frame_at`: `int(np.clip(sample_rate * position / 1000, 0, frames - 1))`
(`np.clip(x, lo, hi)` is `min (max x lo) hi`). -/
def Audio.frame_at (a : Audio) (position : ℤ) : ℤ :=
  pyInt (min (max (a.sample_rate * (position : ℚ) / 1000) 0) ((a.data.length : ℚ) - 1))

/-- `Audio.position_at`: `int(frame / sample_rate * 1000)`. -/
def Audio.position_at (a : Audio) (frame : ℤ) : ℤ :=
  pyInt ((frame : ℚ) / a.sample_rate * 1000)

/-- `audio.Audio.set_marker` (same algorithm as `cassette.MarkSet.set_at`):
insert before the first marker `≥ position`, append if none, no-op on an
exact match. -/
def setMarker : List ℤ → ℤ → List ℤ
  | [], position => [position]
  | m :: ms, position =>
    if position ≤ m then
      if m = position then m :: ms else position :: m :: ms
    else m :: setMarker ms position

/-- `audio.Audio.unset_marker` (`list.remove`): drop the first occurrence;
the source raises `ValueError` when absent, so only calls with the value
present are modelled. -/
def unsetMarker (markers : List ℤ) (position : ℤ) : List ℤ :=
  markers.erase position

/-- The scan of `Audio.section_at` past the first marker, as in `regionGo`. -/
def sectionGo (a : Audio) (frame : ℤ) (prev : ℤ) : List ℤ → Option ℤ × Option ℤ
  | [] => (some (a.frame_at prev), none)
  | m :: ms =>
    if frame < a.frame_at m then (some (a.frame_at prev), some (a.frame_at m))
    else sectionGo a frame m ms

/-- `Audio.section_at`: bounds of the marker-delimited section containing
`frame`; `none` means the respective buffer edge. -/
def Audio.section_at (a : Audio) (frame : ℤ) : Option ℤ × Option ℤ :=
  match a.markers with
  | [] => (some 0, some ((a.data.length : ℤ) - 1))
  | m :: ms =>
    if frame < a.frame_at m then (none, some (a.frame_at m))
    else sectionGo a frame m ms

/-- Substitution of `none` bounds by the buffer edges, as the callers of
`section_at` resolve them (`0` on the left, `frames - 1` on the right). -/
def resolveSection (a : Audio) (sec : Option ℤ × Option ℤ) : ℤ × ℤ :=
  (sec.1.getD 0, sec.2.getD ((a.data.length : ℤ) - 1))

/-- A control-thread marker edit: one `set_marker` or one (successful)
`unset_marker` call. -/
inductive MarkerOp where
  | set (position : ℤ)
  | unset (position : ℤ)

/-- Apply one marker edit to the marker list. -/
def applyOp (markers : List ℤ) : MarkerOp → List ℤ
  | .set p => setMarker markers p
  | .unset p => unsetMarker markers p

/-- Apply a sequence of marker edits in order. -/
def applyOps (markers : List ℤ) (ops : List MarkerOp) : List ℤ :=
  ops.foldl applyOp markers

end audipi

/-! ### Helper lemmas -/

namespace audipi

theorem pyInt_of_nonneg {q : ℚ} (h : 0 ≤ q) : pyInt q = ⌊q⌋ := by
  unfold pyInt
  rw [if_neg (not_lt.mpr h)]

theorem pyInt_nonneg {q : ℚ} (h : 0 ≤ q) : 0 ≤ pyInt q := by
  rw [pyInt_of_nonneg h]
  exact Int.le_floor.mpr (by exact_mod_cast h)

theorem pyInt_mono {p q : ℚ} (h : p ≤ q) : pyInt p ≤ pyInt q := by
  unfold pyInt
  by_cases hp : p < 0 <;> by_cases hq : q < 0 <;>
    simp only [if_pos, if_neg, hp, hq, ite_true, ite_false]
  · exact Int.ceil_le_ceil h
  · exact le_trans (Int.ceil_le.mpr (by exact_mod_cast hp.le))
      (Int.le_floor.mpr (by exact_mod_cast not_lt.mp hq))
  · exact absurd (lt_of_le_of_lt h hq) hp
  · exact Int.floor_le_floor h

theorem floor_min_intCast (x : ℚ) (k : ℤ) : ⌊min x (k : ℚ)⌋ = min ⌊x⌋ k := by
  rcases le_total x (k : ℚ) with h | h
  · rw [min_eq_left h, min_eq_left]
    rw [← Int.floor_intCast (α := ℚ) k]
    exact Int.floor_le_floor h
  · rw [min_eq_right h, Int.floor_intCast, min_eq_right (Int.le_floor.mpr h)]

theorem floor_max_intCast (x : ℚ) (k : ℤ) : ⌊max x (k : ℚ)⌋ = max ⌊x⌋ k := by
  rcases le_total x (k : ℚ) with h | h
  · rw [max_eq_right h, Int.floor_intCast, max_eq_right]
    rw [← Int.floor_intCast (α := ℚ) k]
    exact Int.floor_le_floor h
  · rw [max_eq_left h, max_eq_left (Int.le_floor.mpr h)]

/-- `frame_at` is monotone in the position when the sample rate is nonnegative. -/
theorem frame_at_mono (a : Audio) (hr : 0 ≤ a.sample_rate) {p q : ℤ} (h : p ≤ q) :
    a.frame_at p ≤ a.frame_at q := by
  unfold Audio.frame_at
  apply pyInt_mono
  refine min_le_min (max_le_max ?_ le_rfl) le_rfl
  have hmul : a.sample_rate * (p : ℚ) ≤ a.sample_rate * (q : ℚ) :=
    mul_le_mul_of_nonneg_left (by exact_mod_cast h) hr
  exact (div_le_div_iff_of_pos_right (show (0:ℚ) < 1000 by norm_num)).mpr hmul

/-- For the ten-thousand-frame example at 1,000 Hz with markers at 3,000 ms
and 6,000 ms, `_region` of frame 4,000 resolves to `(3000, 6000)`: the right
bound is the marker's own frame. -/
theorem region_markers_3000_6000 (data : List ℤ) (h : data.length = 10000) :
    region 4000 [3000, 6000] ⟨data, 1000⟩ = (3000, 6000) := by
  simp only [region, regionGo, pos2frame, pyInt, h]
  norm_num

/-- The loop-mode callback on the example of `region_markers_3000_6000` with
a requested block of 2,500 frames: 2,001 frames are copied from
`[4000, 6000]`, 499 more wrap from `[3000, 3498]`, and the recorded buffer
is `(4000, 3498)` with no stop signal. -/
theorem nextBlock_loop_example (data : List ℤ) (h : data.length = 10000) :
    nextBlock ⟨data, 1000⟩ ⟨[3000, 6000], true⟩ ⟨-1, 3999, -1⟩ 2500 =
      (⟨4000, 3498, -1⟩, pySlice data 4000 6001 ++ pySlice data 3000 3499, false) := by
  simp only [nextBlock]
  rw [show (3999 : ℤ) + 1 = 4000 from rfl, region_markers_3000_6000 data h]
  norm_num

/-- Membership after `set_marker`: every element is the new position or an
old element. -/
theorem mem_setMarker {l : List ℤ} {p x : ℤ} (hx : x ∈ setMarker l p) :
    x = p ∨ x ∈ l := by
  induction l with
  | nil => simpa [setMarker] using hx
  | cons m ms ih =>
    by_cases h1 : p ≤ m
    · by_cases h2 : m = p
      · simp only [setMarker, if_pos h1, if_pos h2] at hx
        exact Or.inr hx
      · simp only [setMarker, if_pos h1, if_neg h2, List.mem_cons] at hx
        rcases hx with h | h | h
        · exact Or.inl h
        · exact Or.inr (by simp [h])
        · exact Or.inr (by simp [h])
    · simp only [setMarker, if_neg h1, List.mem_cons] at hx
      rcases hx with h | h
      · exact Or.inr (by simp [h])
      · rcases ih h with h' | h'
        · exact Or.inl h'
        · exact Or.inr (by simp [h'])

/-- `set_marker` preserves strict ascending order. -/
theorem setMarker_sorted {l : List ℤ} (p : ℤ) (h : l.Sorted (· < ·)) :
    (setMarker l p).Sorted (· < ·) := by
  induction l with
  | nil => simp [setMarker]
  | cons m ms ih =>
    rw [List.sorted_cons] at h
    obtain ⟨hm, hms⟩ := h
    by_cases h1 : p ≤ m
    · by_cases h2 : m = p
      · simp only [setMarker, if_pos h1, if_pos h2]
        exact List.sorted_cons.mpr ⟨hm, hms⟩
      · simp only [setMarker, if_pos h1, if_neg h2]
        refine List.sorted_cons.mpr ⟨?_, List.sorted_cons.mpr ⟨hm, hms⟩⟩
        intro b hb
        have hpm : p < m := lt_of_le_of_ne h1 (fun he => h2 he.symm)
        rcases List.mem_cons.mp hb with h' | h'
        · exact h' ▸ hpm
        · exact lt_trans hpm (hm b h')
    · simp only [setMarker, if_neg h1]
      refine List.sorted_cons.mpr ⟨?_, ih hms⟩
      intro b hb
      rcases mem_setMarker hb with h' | h'
      · exact h' ▸ not_le.mp h1
      · exact hm b h'

/-- Inserting a position already present into a sorted marker list is a no-op. -/
theorem setMarker_mem_eq {l : List ℤ} {p : ℤ} (h : l.Sorted (· < ·)) (hp : p ∈ l) :
    setMarker l p = l := by
  induction l with
  | nil => cases hp
  | cons m ms ih =>
    rw [List.sorted_cons] at h
    obtain ⟨hm, hms⟩ := h
    by_cases h1 : p ≤ m
    · have h2 : m = p := by
        rcases List.mem_cons.mp hp with h' | h'
        · exact h'.symm
        · exact absurd (hm p h') (not_lt.mpr h1)
      simp [setMarker, if_pos h1, if_pos h2]
    · have hp' : p ∈ ms := by
        rcases List.mem_cons.mp hp with h' | h'
        · exact absurd (le_of_eq h') h1
        · exact h'
      simp [setMarker, if_neg h1, ih hms hp']

/-- `unset_marker` preserves strict ascending order. -/
theorem unsetMarker_sorted {l : List ℤ} (p : ℤ) (h : l.Sorted (· < ·)) :
    (unsetMarker l p).Sorted (· < ·) :=
  List.Pairwise.sublist (List.erase_sublist p l) h

/-- Any sequence of marker edits preserves strict ascending order. -/
theorem applyOps_sorted (ops : List MarkerOp) :
    ∀ l : List ℤ, l.Sorted (· < ·) → (applyOps l ops).Sorted (· < ·) := by
  induction ops with
  | nil => intro l h; exact h
  | cons op ops ih =>
    intro l h
    cases op with
    | set p => exact ih _ (setMarker_sorted p h)
    | unset p => exact ih _ (unsetMarker_sorted p h)

/-- Coverage half of the `section_at` scan: once the scan has passed a marker
whose frame is `≤ f`, the resolved bounds of the result bracket `f`. -/
theorem sectionGo_coverage (a : Audio) (f : ℤ) (hf : f ≤ (a.data.length : ℤ) - 1) :
    ∀ (ms : List ℤ) (prev : ℤ), a.frame_at prev ≤ f →
      (resolveSection a (sectionGo a f prev ms)).1 ≤ f ∧
      f ≤ (resolveSection a (sectionGo a f prev ms)).2 := by
  intro ms
  induction ms with
  | nil =>
    intro prev hprev
    exact ⟨hprev, hf⟩
  | cons m ms ih =>
    intro prev hprev
    by_cases h : f < a.frame_at m
    · simp only [sectionGo, if_pos h]
      exact ⟨hprev, h.le⟩
    · simp only [sectionGo, if_neg h]
      exact ih m (not_lt.mp h)

/-- On a sorted tail, the left bound produced by the `section_at` scan stays
between the frame of the marker just passed and the query frame. -/
theorem sectionGo_left_bounds (a : Audio) (hr : 0 ≤ a.sample_rate) (g : ℤ) :
    ∀ (ms : List ℤ) (prev : ℤ), a.frame_at prev ≤ g →
      ms.Sorted (· < ·) → (∀ x ∈ ms, prev < x) →
      a.frame_at prev ≤ (resolveSection a (sectionGo a g prev ms)).1 ∧
      (resolveSection a (sectionGo a g prev ms)).1 ≤ g := by
  intro ms
  induction ms with
  | nil =>
    intro prev hprev _ _
    exact ⟨le_rfl, hprev⟩
  | cons m ms ih =>
    intro prev hprev hsorted hall
    rw [List.sorted_cons] at hsorted
    by_cases h : g < a.frame_at m
    · simp only [sectionGo, if_pos h]
      exact ⟨le_rfl, hprev⟩
    · simp only [sectionGo, if_neg h]
      have hchain : a.frame_at prev ≤ a.frame_at m :=
        frame_at_mono a hr (hall m (List.mem_cons_self m ms)).le
      obtain ⟨ih1, ih2⟩ := ih m (not_lt.mp h) hsorted.2 hsorted.1
      exact ⟨le_trans hchain ih1, ih2⟩

/-- Stepping the query frame by one either leaves the `section_at` scan result
unchanged or crosses a boundary shared by the two sections. -/
theorem sectionGo_step (a : Audio) (hr : 0 ≤ a.sample_rate) (f : ℤ) :
    ∀ (ms : List ℤ) (prev : ℤ), a.frame_at prev ≤ f →
      ms.Sorted (· < ·) → (∀ x ∈ ms, prev < x) →
      sectionGo a (f + 1) prev ms = sectionGo a f prev ms ∨
      ((resolveSection a (sectionGo a f prev ms)).2 = f + 1 ∧
       (resolveSection a (sectionGo a (f + 1) prev ms)).1 = f + 1) := by
  intro ms
  induction ms with
  | nil =>
    intro prev _ _ _
    exact Or.inl rfl
  | cons m ms ih =>
    intro prev hprev hsorted hall
    rw [List.sorted_cons] at hsorted
    by_cases h1 : f + 1 < a.frame_at m
    · have h0 : f < a.frame_at m := by omega
      left
      simp only [sectionGo, if_pos h0, if_pos h1]
    · by_cases h0 : f < a.frame_at m
      · have hfm : a.frame_at m = f + 1 := by omega
        right
        constructor
        · simp only [sectionGo, if_pos h0, resolveSection, Option.getD_some]
          exact hfm
        · simp only [sectionGo, if_neg h1]
          obtain ⟨lb1, lb2⟩ := sectionGo_left_bounds a hr (f + 1) ms m (by omega)
            hsorted.2 hsorted.1
          omega
      · have hn1 : ¬ (f + 1 < a.frame_at m) := by omega
        simp only [sectionGo, if_neg h0, if_neg hn1]
        exact ih m (not_lt.mp h0) hsorted.2 hsorted.1

/-- The recorded `buff_first_frame` of any callback invocation is
`buff_last_frame + 1` of the state it started from, in all four branches. -/
theorem nextBlock_first_frame (sound : Sound) (params : Params) (state : State)
    (block : ℕ) :
    ((nextBlock sound params state block).1).buff_first_frame =
      state.buff_last_frame + 1 := by
  simp only [nextBlock]
  split_ifs <;> rfl

end audipi

/-! ### Claims -/

namespace audipi

/-- C1 (counterexample): on the spec's own loop-wrap example the code does
not produce the section `(3000, 5999)` and does not record
`last_frame = 3499`: `_region` keeps the marker's frame `6000` as the
inclusive right bound, so 2,001 frames are copied before the wrap and the
recorded last frame is 3,498. -/
theorem C1_loop_wrap_counterexample :
    region 4000 [3000, 6000] ⟨List.replicate 10000 0, 1000⟩ ≠ (3000, 5999) ∧
    ((nextBlock ⟨List.replicate 10000 0, 1000⟩ ⟨[3000, 6000], true⟩
        ⟨-1, 3999, -1⟩ 2500).1).buff_last_frame ≠ 3499 := by
  constructor
  · rw [region_markers_3000_6000 (List.replicate 10000 0) (by simp only [List.length_replicate])]
    decide
  · rw [nextBlock_loop_example (List.replicate 10000 0) (by simp only [List.length_replicate])]
    decide

/-- C1 (amended): for an Audio of 10,000 frames at 1,000 Hz with markers at
3,000 ms and 6,000 ms, loop enabled, callback first frame 4,000 and a
requested block of 2,500 frames: the resolved section is `(3000, 6000)`,
`size = min(2500, 6000 - 4000 + 1) = 2001` frames are copied from
`[4000, 6000]`, the remaining 499 frames wrap from `[3000, 3498]`, and the
recorded buffer is `first_frame = 4000`, `last_frame = 3498`, with no stop
signal. -/
theorem C1_loop_wrap (data : List ℤ) (h : data.length = 10000) :
    region 4000 [3000, 6000] ⟨data, 1000⟩ = (3000, 6000) ∧
    nextBlock ⟨data, 1000⟩ ⟨[3000, 6000], true⟩ ⟨-1, 3999, -1⟩ 2500 =
      (⟨4000, 3498, -1⟩, pySlice data 4000 6001 ++ pySlice data 3000 3499, false) :=
  ⟨region_markers_3000_6000 data h, nextBlock_loop_example data h⟩

/-- C1 witness: the amended loop-wrap behaviour at a concrete buffer. -/
theorem C1_loop_wrap_witness :
    region 4000 [3000, 6000] ⟨List.replicate 10000 0, 1000⟩ = (3000, 6000) ∧
    nextBlock ⟨List.replicate 10000 0, 1000⟩ ⟨[3000, 6000], true⟩ ⟨-1, 3999, -1⟩ 2500 =
      (⟨4000, 3498, -1⟩,
        pySlice (List.replicate 10000 0) 4000 6001 ++
          pySlice (List.replicate 10000 0) 3000 3499, false) :=
  C1_loop_wrap (List.replicate 10000 0) (by simp only [List.length_replicate])

/-- C2 (code bug): `start` initializes `buff_last_frame` to `-1`, so the
first callback invocation reads from frame `0` no matter what the stored
start position is; here the Pausing position is 5,000 ms at 1,000 Hz, whose
frame under the engine's own conversion is 5,000, not 0. -/
theorem C2_start_ignores_position :
    nextFirstFrame (start (prepare (List.replicate 10000 0) 1000 5000 ⟨[], false⟩)).state = 0 ∧
    pos2frame (start (prepare (List.replicate 10000 0) 1000 5000 ⟨[], false⟩)).sound
      (start (prepare (List.replicate 10000 0) 1000 5000 ⟨[], false⟩)).start_position = 5000 := by
  constructor
  · rfl
  · simp only [start, prepare, pos2frame, pyInt, List.length_replicate]
    norm_num

/-- C3 (counterexample): with a buffer record whose `output_time` (9 s) is
behind the stream clock (9.5 s) — a non-positive delta — the code still
returns the definite position 4,500 ms (frame 4500 = 4000 + 0.5·1000): there
is no "unknown" result anywhere in `estimate_current_position`. -/
theorem C3_stale_record_counterexample :
    (⟨⟨List.replicate 100 0, 1000⟩, ⟨[], false⟩, ⟨4000, 5023, 9⟩, 0⟩ :
        Playing).state.buff_output_time ≤ 19 / 2 ∧
    estimateCurrentPosition
      ⟨⟨List.replicate 100 0, 1000⟩, ⟨[], false⟩, ⟨4000, 5023, 9⟩, 0⟩ (19 / 2) = 4500 := by
  constructor
  · norm_num
  · simp only [estimateCurrentPosition, estimateCurrentFrame, frame2pos, pyInt]
    norm_num

/-- C3 (amended): the estimator never answers "unknown"; when the recorded
`output_time` is not ahead of the stream clock (delta ≤ 0) the computed frame
extrapolates forward, i.e. it is at least the recorded `buff_first_frame`. -/
theorem C3_stale_record_extrapolates (pb : Playing) (now : ℚ)
    (hr : 0 ≤ pb.sound.sample_rate) (hd : pb.state.buff_output_time ≤ now) :
    (pb.state.buff_first_frame : ℚ) ≤ estimateCurrentFrame pb now := by
  unfold estimateCurrentFrame
  nlinarith [mul_nonneg (sub_nonneg.mpr hd) hr]

/-- C3 witness: the forward extrapolation at the stale record of the
counterexample instance. -/
theorem C3_stale_record_extrapolates_witness :
    ((⟨⟨List.replicate 100 0, 1000⟩, ⟨[], false⟩, ⟨4000, 5023, 9⟩, 0⟩ :
        Playing).state.buff_first_frame : ℚ) ≤
      estimateCurrentFrame
        ⟨⟨List.replicate 100 0, 1000⟩, ⟨[], false⟩, ⟨4000, 5023, 9⟩, 0⟩ (19 / 2) :=
  C3_stale_record_extrapolates
    ⟨⟨List.replicate 100 0, 1000⟩, ⟨[], false⟩, ⟨4000, 5023, 9⟩, 0⟩ (19 / 2)
    (by norm_num) (by norm_num)

/-- C4 (confirmed): for a 10,000-frame Audio, non-loop playback with the
callback's first frame at 9,990 and a requested block of 20: the 10 remaining
frames `[9990, 9999]` fill the first 10 output slots, the last 10 are
zero-filled, the record becomes `first_frame = 9990`, `last_frame = 9999`,
and the stop signal is raised on this callback. -/
theorem C4_nonloop_end (data : List ℤ) (h : data.length = 10000) :
    nextBlock ⟨data, 1000⟩ ⟨[], false⟩ ⟨-1, 9989, -1⟩ 20 =
      (⟨9990, 9999, -1⟩, pySlice data 9990 10000 ++ List.replicate 10 0, true) := by
  simp only [nextBlock, h]
  norm_num
  decide

/-- C4 witness: the non-loop end behaviour at a concrete buffer. -/
theorem C4_nonloop_end_witness :
    nextBlock ⟨List.replicate 10000 0, 1000⟩ ⟨[], false⟩ ⟨-1, 9989, -1⟩ 20 =
      (⟨9990, 9999, -1⟩,
        pySlice (List.replicate 10000 0) 9990 10000 ++ List.replicate 10 0, true) :=
  C4_nonloop_end (List.replicate 10000 0) (by simp only [List.length_replicate])

/-- C5 (counterexample): with 10 frames at 1,000 Hz and one marker at 5 ms
(frame 5), frames 4 and 5 get distinct sections whose resolved closed bounds
`[0, 5]` and `[5, 9]` both contain frame 5 — adjacent sections overlap at the
marker frame, so the sections do not partition the buffer. -/
theorem C5_overlap_counterexample :
    (⟨List.replicate 10 0, 1000, [5]⟩ : Audio).section_at 4 ≠
      (⟨List.replicate 10 0, 1000, [5]⟩ : Audio).section_at 5 ∧
    ((resolveSection ⟨List.replicate 10 0, 1000, [5]⟩
        ((⟨List.replicate 10 0, 1000, [5]⟩ : Audio).section_at 4)).1 ≤ 5 ∧
      5 ≤ (resolveSection ⟨List.replicate 10 0, 1000, [5]⟩
        ((⟨List.replicate 10 0, 1000, [5]⟩ : Audio).section_at 4)).2) ∧
    ((resolveSection ⟨List.replicate 10 0, 1000, [5]⟩
        ((⟨List.replicate 10 0, 1000, [5]⟩ : Audio).section_at 5)).1 ≤ 5 ∧
      5 ≤ (resolveSection ⟨List.replicate 10 0, 1000, [5]⟩
        ((⟨List.replicate 10 0, 1000, [5]⟩ : Audio).section_at 5)).2) := by
  have h4 : (⟨List.replicate 10 0, 1000, [5]⟩ : Audio).section_at 4 = (none, some 5) := by
    simp only [Audio.section_at, sectionGo, Audio.frame_at, pyInt]
    norm_num
  have h5 : (⟨List.replicate 10 0, 1000, [5]⟩ : Audio).section_at 5 = (some 5, none) := by
    simp only [Audio.section_at, sectionGo, Audio.frame_at, pyInt]
    norm_num
  rw [h4, h5]
  refine ⟨by decide, ⟨?_, ?_⟩, ⟨?_, ?_⟩⟩ <;> simp [resolveSection]

/-- C5 (amended): for every frame `f` in range, `section_at f` brackets `f`
after substituting the buffer edges for `none` (so the sections cover the
buffer with no gaps); and stepping to `f + 1` either keeps the same section
or crosses a boundary where the old section's right bound and the new
section's left bound are both `f + 1` — adjacent sections abut, sharing
exactly the boundary marker frame, and partition only if right bounds are
read as exclusive. -/
theorem C5_section_coverage (a : Audio) (f : ℤ) (hr : 0 ≤ a.sample_rate)
    (hm : a.markers.Sorted (· < ·)) (h0 : 0 ≤ f) (h1 : f ≤ (a.data.length : ℤ) - 1) :
    ((resolveSection a (a.section_at f)).1 ≤ f ∧
     f ≤ (resolveSection a (a.section_at f)).2) ∧
    (f + 1 ≤ (a.data.length : ℤ) - 1 →
      a.section_at (f + 1) = a.section_at f ∨
      ((resolveSection a (a.section_at f)).2 = f + 1 ∧
       (resolveSection a (a.section_at (f + 1))).1 = f + 1)) := by
  rcases hms : a.markers with _ | ⟨m, ms⟩
  · constructor
    · simp [Audio.section_at, hms, resolveSection]
      omega
    · intro h2
      left
      simp [Audio.section_at, hms]
  · rw [hms, List.sorted_cons] at hm
    constructor
    · by_cases h : f < a.frame_at m
      · simp only [Audio.section_at, hms, if_pos h, resolveSection, Option.getD_none,
          Option.getD_some]
        exact ⟨h0, h.le⟩
      · simp only [Audio.section_at, hms, if_neg h]
        exact sectionGo_coverage a f h1 ms m (not_lt.mp h)
    · intro h2
      by_cases hA : f + 1 < a.frame_at m
      · have hB : f < a.frame_at m := by omega
        left
        simp only [Audio.section_at, hms, if_pos hA, if_pos hB]
      · by_cases hB : f < a.frame_at m
        · have hfm : a.frame_at m = f + 1 := by omega
          right
          constructor
          · simp only [Audio.section_at, hms, if_pos hB, resolveSection, Option.getD_some]
            exact hfm
          · simp only [Audio.section_at, hms, if_neg hA]
            obtain ⟨lb1, lb2⟩ := sectionGo_left_bounds a hr (f + 1) ms m (by omega)
              hm.2 hm.1
            omega
        · have hn1 : ¬ (f + 1 < a.frame_at m) := by omega
          simp only [Audio.section_at, hms, if_neg hB, if_neg hn1]
          exact sectionGo_step a hr f ms m (not_lt.mp hB) hm.2 hm.1

/-- C5 witness: the coverage and abutment property at a concrete audio. -/
theorem C5_section_coverage_witness :
    ((resolveSection ⟨List.replicate 10 0, 1000, [5]⟩
        ((⟨List.replicate 10 0, 1000, [5]⟩ : Audio).section_at 3)).1 ≤ 3 ∧
      3 ≤ (resolveSection ⟨List.replicate 10 0, 1000, [5]⟩
        ((⟨List.replicate 10 0, 1000, [5]⟩ : Audio).section_at 3)).2) ∧
    (3 + 1 ≤ (((⟨List.replicate 10 0, 1000, [5]⟩ : Audio).data.length : ℤ)) - 1 →
      (⟨List.replicate 10 0, 1000, [5]⟩ : Audio).section_at (3 + 1) =
        (⟨List.replicate 10 0, 1000, [5]⟩ : Audio).section_at 3 ∨
      ((resolveSection ⟨List.replicate 10 0, 1000, [5]⟩
          ((⟨List.replicate 10 0, 1000, [5]⟩ : Audio).section_at 3)).2 = 3 + 1 ∧
       (resolveSection ⟨List.replicate 10 0, 1000, [5]⟩
          ((⟨List.replicate 10 0, 1000, [5]⟩ : Audio).section_at (3 + 1))).1 = 3 + 1)) :=
  C5_section_coverage ⟨List.replicate 10 0, 1000, [5]⟩ 3 (by norm_num)
    (by simp) (by norm_num) (by simp)

end audipi

namespace audipi

/-- C6 (counterexample): at 441 Hz with 1,000 frames, `frame_at 2` returns 0,
but `round(441 * 2 / 1000) = round(0.882) = 1` clamped to `[0, 999]` is 1:
`frame_at` truncates, it does not round; the preconditions
`0 ≤ 2 ≤ length = 2267` hold. -/
theorem C6_round_counterexample :
    (0 : ℤ) ≤ 2 ∧ (2 : ℤ) ≤ (⟨List.replicate 1000 0, 441, []⟩ : Audio).length ∧
    (⟨List.replicate 1000 0, 441, []⟩ : Audio).frame_at 2 = 0 ∧
    max 0 (min (round ((441 : ℚ) * ((2 : ℤ) : ℚ) / 1000)) 999) = 1 := by
  refine ⟨by norm_num, ?_, ?_, ?_⟩
  · simp only [Audio.length, pyInt, List.length_replicate]
    norm_num
  · simp only [Audio.frame_at, pyInt, List.length_replicate]
    norm_num
  · rw [round_eq]
    norm_num

/-- C6 (amended): for every Audio with at least one frame and every position
in `[0, length]`, `frame_at` returns the floor (truncation) of
`sample_rate * position / 1000`, clamped to `[0, frames - 1]`. -/
theorem C6_frame_at_floor (a : Audio) (position : ℤ) (hn : 1 ≤ a.data.length)
    (h0 : 0 ≤ position) (h1 : position ≤ a.length) :
    a.frame_at position =
      max 0 (min ⌊a.sample_rate * (position : ℚ) / 1000⌋ ((a.data.length : ℤ) - 1)) := by
  unfold Audio.frame_at
  have hcast : ((a.data.length : ℚ) - 1) = (((a.data.length : ℤ) - 1 : ℤ) : ℚ) := by
    push_cast
    ring
  have hn1 : (0 : ℤ) ≤ (a.data.length : ℤ) - 1 := by
    omega
  have hnn : (0 : ℚ) ≤
      min (max (a.sample_rate * (position : ℚ) / 1000) 0) ((a.data.length : ℚ) - 1) := by
    refine le_min (le_max_right _ 0) ?_
    rw [hcast]
    exact_mod_cast hn1
  rw [pyInt_of_nonneg hnn, hcast, floor_min_intCast]
  rw [show (0 : ℚ) = ((0 : ℤ) : ℚ) by norm_num, floor_max_intCast]
  omega

/-- C6 witness: the floor behaviour at 441 Hz, position 2 ms. -/
theorem C6_frame_at_floor_witness :
    (⟨List.replicate 1000 0, 441, []⟩ : Audio).frame_at 2 =
      max 0 (min ⌊(441 : ℚ) * ((2 : ℤ) : ℚ) / 1000⌋
        (((⟨List.replicate 1000 0, 441, []⟩ : Audio).data.length : ℤ) - 1)) :=
  C6_frame_at_floor ⟨List.replicate 1000 0, 441, []⟩ 2
    (by simp only [List.length_replicate]; norm_num)
    (by norm_num)
    (by simp only [Audio.length, pyInt, List.length_replicate]; norm_num)

/-- C7 (counterexample): at 44,100 Hz with 100 frames, the valid frame 44 has
`position_at 44 = 0` ms and `frame_at 0 = 0`, so the round trip lands 44
frames away — far more than the claimed 1 frame. -/
theorem C7_round_trip_counterexample :
    (0 : ℤ) ≤ 44 ∧
    (44 : ℤ) < ((⟨List.replicate 100 0, 44100, []⟩ : Audio).data.length : ℤ) ∧
    (⟨List.replicate 100 0, 44100, []⟩ : Audio).frame_at
      ((⟨List.replicate 100 0, 44100, []⟩ : Audio).position_at 44) = 0 ∧
    ¬ ((44 : ℤ) - (⟨List.replicate 100 0, 44100, []⟩ : Audio).frame_at
      ((⟨List.replicate 100 0, 44100, []⟩ : Audio).position_at 44) ≤ 1) := by
  have hpos : (⟨List.replicate 100 0, 44100, []⟩ : Audio).position_at 44 = 0 := by
    simp only [Audio.position_at, pyInt]
    norm_num
  have hfr : (⟨List.replicate 100 0, 44100, []⟩ : Audio).frame_at 0 = 0 := by
    simp only [Audio.frame_at, pyInt, List.length_replicate]
    norm_num
  refine ⟨by norm_num, ?_, ?_, ?_⟩
  · simp only [List.length_replicate]
    norm_num
  · rw [hpos, hfr]
  · rw [hpos, hfr]
    norm_num

/-- C7 (amended): for every Audio with positive sample rate and every valid
frame `f`, the round trip never overshoots (`frame_at (position_at f) ≤ f`)
and its deficit is below `sample_rate / 1000 + 1` frames; in particular it is
within 1 frame whenever `sample_rate ≤ 1000`. -/
theorem C7_round_trip_bound (a : Audio) (f : ℤ) (h0 : 0 ≤ f)
    (h1 : f < (a.data.length : ℤ)) (hr : 0 < a.sample_rate) :
    a.frame_at (a.position_at f) ≤ f ∧
    ((f : ℚ) - (a.frame_at (a.position_at f) : ℚ) < a.sample_rate / 1000 + 1) ∧
    (a.sample_rate ≤ 1000 → f - a.frame_at (a.position_at f) ≤ 1) := by
  have hq0 : (0 : ℚ) ≤ (f : ℚ) / a.sample_rate * 1000 :=
    mul_nonneg (div_nonneg (by exact_mod_cast h0) hr.le) (by norm_num)
  have hpfloor : a.position_at f = ⌊(f : ℚ) / a.sample_rate * 1000⌋ := by
    unfold Audio.position_at
    exact pyInt_of_nonneg hq0
  have hp0 : (0 : ℤ) ≤ a.position_at f := by
    rw [hpfloor]
    exact Int.le_floor.mpr (by exact_mod_cast hq0)
  have hx0 : (0 : ℚ) ≤ a.sample_rate * (a.position_at f : ℚ) / 1000 :=
    div_nonneg (mul_nonneg hr.le (by exact_mod_cast hp0)) (by norm_num)
  have hxf : a.sample_rate * (a.position_at f : ℚ) / 1000 ≤ (f : ℚ) := by
    have hple : (a.position_at f : ℚ) ≤ (f : ℚ) / a.sample_rate * 1000 := by
      rw [hpfloor]
      exact Int.floor_le _
    have hmul : a.sample_rate * (a.position_at f : ℚ) ≤
        a.sample_rate * ((f : ℚ) / a.sample_rate * 1000) :=
      mul_le_mul_of_nonneg_left hple hr.le
    calc a.sample_rate * (a.position_at f : ℚ) / 1000
        ≤ a.sample_rate * ((f : ℚ) / a.sample_rate * 1000) / 1000 :=
          (div_le_div_iff_of_pos_right (show (0:ℚ) < 1000 by norm_num)).mpr hmul
      _ = (f : ℚ) := by field_simp
  have hfn : (f : ℚ) ≤ (a.data.length : ℚ) - 1 := by
    have hle : f ≤ (a.data.length : ℤ) - 1 := by omega
    calc (f : ℚ) ≤ (((a.data.length : ℤ) - 1 : ℤ) : ℚ) := by exact_mod_cast hle
      _ = (a.data.length : ℚ) - 1 := by push_cast; ring
  have hfa : a.frame_at (a.position_at f) =
      ⌊a.sample_rate * (a.position_at f : ℚ) / 1000⌋ := by
    unfold Audio.frame_at
    rw [max_eq_left hx0, min_eq_left (le_trans hxf hfn)]
    exact pyInt_of_nonneg hx0
  have hup : a.frame_at (a.position_at f) ≤ f := by
    rw [hfa]
    calc ⌊a.sample_rate * (a.position_at f : ℚ) / 1000⌋ ≤ ⌊(f : ℚ)⌋ :=
          Int.floor_le_floor hxf
      _ = f := Int.floor_intCast f
  have hlow : (f : ℚ) - (a.frame_at (a.position_at f) : ℚ) < a.sample_rate / 1000 + 1 := by
    have h1' : (f : ℚ) / a.sample_rate * 1000 - 1 < (a.position_at f : ℚ) := by
      rw [hpfloor]
      exact Int.sub_one_lt_floor _
    have hmul : a.sample_rate * ((f : ℚ) / a.sample_rate * 1000 - 1) <
        a.sample_rate * (a.position_at f : ℚ) :=
      (mul_lt_mul_left hr).mpr h1'
    have hdiv : a.sample_rate * ((f : ℚ) / a.sample_rate * 1000 - 1) / 1000 <
        a.sample_rate * (a.position_at f : ℚ) / 1000 :=
      (div_lt_div_iff_of_pos_right (show (0:ℚ) < 1000 by norm_num)).mpr hmul
    have heq : a.sample_rate * ((f : ℚ) / a.sample_rate * 1000 - 1) / 1000 =
        (f : ℚ) - a.sample_rate / 1000 := by
      field_simp
    have hfl : a.sample_rate * (a.position_at f : ℚ) / 1000 - 1 <
        (⌊a.sample_rate * (a.position_at f : ℚ) / 1000⌋ : ℚ) :=
      Int.sub_one_lt_floor _
    rw [hfa]
    rw [heq] at hdiv
    linarith
  refine ⟨hup, hlow, fun hr1000 => ?_⟩
  have h2 : (f : ℚ) - (a.frame_at (a.position_at f) : ℚ) < 2 := by
    have hd1 : a.sample_rate / 1000 ≤ 1 := by
      rw [div_le_one (by norm_num : (0:ℚ) < 1000)]
      exact hr1000
    linarith
  have h3 : ((f - a.frame_at (a.position_at f) : ℤ) : ℚ) < 2 := by
    push_cast
    linarith
  have h4 : (f - a.frame_at (a.position_at f) : ℤ) < 2 := by exact_mod_cast h3
  omega

/-- C7 witness: the round-trip bound at 1,000 Hz, frame 5. -/
theorem C7_round_trip_bound_witness :
    (⟨List.replicate 10 0, 1000, []⟩ : Audio).frame_at
      ((⟨List.replicate 10 0, 1000, []⟩ : Audio).position_at 5) ≤ 5 ∧
    ((5 : ℚ) - ((⟨List.replicate 10 0, 1000, []⟩ : Audio).frame_at
      ((⟨List.replicate 10 0, 1000, []⟩ : Audio).position_at 5) : ℚ) <
        (⟨List.replicate 10 0, 1000, []⟩ : Audio).sample_rate / 1000 + 1) ∧
    ((⟨List.replicate 10 0, 1000, []⟩ : Audio).sample_rate ≤ 1000 →
      5 - (⟨List.replicate 10 0, 1000, []⟩ : Audio).frame_at
        ((⟨List.replicate 10 0, 1000, []⟩ : Audio).position_at 5) ≤ 1) :=
  C7_round_trip_bound ⟨List.replicate 10 0, 1000, []⟩ 5 (by norm_num)
    (by simp only [List.length_replicate]; norm_num) (by norm_num)

/-- C8 (confirmed): starting from any strictly increasing marker list, any
sequence of `set_marker` and successful `unset_marker` calls leaves the list
strictly increasing and duplicate-free, and inserting a value already
present leaves it unchanged. -/
theorem C8_marker_invariant (l : List ℤ) (ops : List MarkerOp)
    (h : l.Sorted (· < ·)) :
    (applyOps l ops).Sorted (· < ·) ∧ (applyOps l ops).Nodup ∧
    ∀ p ∈ applyOps l ops, setMarker (applyOps l ops) p = applyOps l ops := by
  have hs := applyOps_sorted ops l h
  exact ⟨hs, hs.nodup, fun p hp => setMarker_mem_eq hs hp⟩

/-- C8 witness: the invariant after a concrete edit sequence. -/
theorem C8_marker_invariant_witness :
    (applyOps [3, 7] [.set 5, .unset 3, .set 5]).Sorted (· < ·) ∧
    (applyOps [3, 7] [.set 5, .unset 3, .set 5]).Nodup ∧
    ∀ p ∈ applyOps [3, 7] [.set 5, .unset 3, .set 5],
      setMarker (applyOps [3, 7] [.set 5, .unset 3, .set 5]) p =
        applyOps [3, 7] [.set 5, .unset 3, .set 5] :=
  C8_marker_invariant [3, 7] [.set 5, .unset 3, .set 5] (by simp)

/-- C9 (confirmed): in non-loop mode the callback raises the stop signal iff
the frames remaining before the callback (`len - first_frame`) are strictly
fewer than the requested block; when the previous callback ended exactly at
the last frame, the next callback outputs an all-zero buffer and raises the
stop signal. -/
theorem C9_nonloop_stop_iff (sound : Sound) (markers : List ℤ) (state : State)
    (block : ℕ) (hb : 0 < block) :
    ((nextBlock sound ⟨markers, false⟩ state block).2.2 = true ↔
      (sound.data.length : ℤ) - (state.buff_last_frame + 1) < block) ∧
    (state.buff_last_frame + 1 = (sound.data.length : ℤ) →
      (nextBlock sound ⟨markers, false⟩ state block).2.1 = List.replicate block 0 ∧
      (nextBlock sound ⟨markers, false⟩ state block).2.2 = true) := by
  constructor
  · simp only [nextBlock, eq_false (by decide : ¬ (false = true)), if_false]
    split_ifs with h
    · exact ⟨fun _ => by omega, fun _ => rfl⟩
    · constructor
      · intro hc
        exact absurd hc (by decide)
      · intro hP
        exact absurd hP (by omega)
  · intro h
    simp only [nextBlock, eq_false (by decide : ¬ (false = true)), if_false, h]
    have hmin : min (block : ℤ) ((sound.data.length : ℤ) - (sound.data.length : ℤ)) = 0 := by
      omega
    rw [hmin]
    split_ifs with h2
    · refine ⟨?_, rfl⟩
      simp only [pySlice]
      have ht0 : ((sound.data.length : ℤ) + 0 - 1 + 1 - (sound.data.length : ℤ)).toNat = 0 := by
        omega
      rw [ht0]
      simp only [List.take_zero, List.nil_append]
      congr 1
    · exact absurd (by omega : (0 : ℤ) < (block : ℤ)) h2

/-- C9 witness: boundary behaviour on a 4-frame sound, block 2: the callback
after the exact end outputs zeros and stops. -/
theorem C9_nonloop_stop_iff_witness :
    ((nextBlock ⟨[2, 4, 6, 8], 1000⟩ ⟨[], false⟩ ⟨0, 3, 0⟩ 2).2.2 = true ↔
      ((⟨[2, 4, 6, 8], 1000⟩ : Sound).data.length : ℤ) - ((3 : ℤ) + 1) < 2) ∧
    ((3 : ℤ) + 1 = ((⟨[2, 4, 6, 8], 1000⟩ : Sound).data.length : ℤ) →
      (nextBlock ⟨[2, 4, 6, 8], 1000⟩ ⟨[], false⟩ ⟨0, 3, 0⟩ 2).2.1 = List.replicate 2 0 ∧
      (nextBlock ⟨[2, 4, 6, 8], 1000⟩ ⟨[], false⟩ ⟨0, 3, 0⟩ 2).2.2 = true) :=
  C9_nonloop_stop_iff ⟨[2, 4, 6, 8], 1000⟩ [] ⟨0, 3, 0⟩ 2 (by decide)

/-- C10 (confirmed): `seek` accepts any integer position, clamps it into
`[0, length]`, and sets the cursor so that the very next callback's recorded
first frame is `_pos2frame` of the clamped position plus one. -/
theorem C10_seek_clamps (pb : Playing) (position : ℤ)
    (hr : 0 < pb.sound.sample_rate) :
    0 ≤ max 0 (min position (length pb.sound)) ∧
    max 0 (min position (length pb.sound)) ≤ length pb.sound ∧
    ∀ block : ℕ,
      ((nextBlock (seek pb position).sound (seek pb position).params
          (seek pb position).state block).1).buff_first_frame =
        pos2frame pb.sound (max 0 (min position (length pb.sound))) + 1 := by
  have hlen : 0 ≤ length pb.sound := by
    unfold length
    exact pyInt_nonneg (mul_nonneg (div_nonneg (by positivity) hr.le) (by norm_num))
  refine ⟨le_max_left _ _, max_le hlen (min_le_right _ _), fun block => ?_⟩
  rw [nextBlock_first_frame]
  rfl

/-- C10 witness: seeking far past the end of a 4-frame sound at 1,000 Hz. -/
theorem C10_seek_clamps_witness :
    0 ≤ max 0 (min 99999 (length (⟨[2, 4, 6, 8], 1000⟩ : Sound))) ∧
    max 0 (min 99999 (length (⟨[2, 4, 6, 8], 1000⟩ : Sound))) ≤
      length (⟨[2, 4, 6, 8], 1000⟩ : Sound) ∧
    ∀ block : ℕ,
      ((nextBlock
          (seek ⟨⟨[2, 4, 6, 8], 1000⟩, ⟨[], false⟩, ⟨0, 0, 0⟩, 0⟩ 99999).sound
          (seek ⟨⟨[2, 4, 6, 8], 1000⟩, ⟨[], false⟩, ⟨0, 0, 0⟩, 0⟩ 99999).params
          (seek ⟨⟨[2, 4, 6, 8], 1000⟩, ⟨[], false⟩, ⟨0, 0, 0⟩, 0⟩ 99999).state
          block).1).buff_first_frame =
        pos2frame (⟨[2, 4, 6, 8], 1000⟩ : Sound)
          (max 0 (min 99999 (length (⟨[2, 4, 6, 8], 1000⟩ : Sound)))) + 1 :=
  C10_seek_clamps ⟨⟨[2, 4, 6, 8], 1000⟩, ⟨[], false⟩, ⟨0, 0, 0⟩, 0⟩ 99999 (by norm_num)

end audipi
